import Mathlib

/-!
Verification of the Kcpr-Playlist reconciliation service.

The development shallowly embeds the three source files:
`spotify.py` (catalog wrapper: `get_track`, `add_tracks_to_playlist`,
`Utils.str_similarity` via difflib's `SequenceMatcher.ratio`),
`kcpr.py` (`KcprSpotifyService.handle_now_playing` / `monitor_now_playing`)
and `scheduler.py` (`KcprSpotifyScheduler.__spotify_kcpr_event`).
Remote collaborators (the catalog search and the playlist append endpoint)
are passed in as oracles; raised Python exceptions are modelled with
`Except`/`Option`, and Python floats with `ℚ`.
-/

set_option autoImplicit false

/-- A raised Python exception, as far as the claims need to distinguish them. -/
inductive PyErr where
  | indexError
  | transportError
deriving DecidableEq, Repr

/-- One catalog search result: `{"artists": [{"name": ...}, ...], "name": ..., "uri": ...}`.
`artists` keeps the full list so that `track["artists"][0]` can fail like the source. -/
structure Candidate where
  artists : List String
  name : String
  uri : String
deriving DecidableEq, Repr

/-- Observable events of one cycle: remote calls issued and log lines emitted. -/
inductive Effect where
  | searched (query : String)
  | remoteAppend (playlist : String) (tracks : List String)
  | warnEmptyTrackId
  | warnNotFound (query : String)
  | warnAlreadyInPlaylist (query : String)
  | logNowPlaying (query : String)
  | logAdded (query : String)
  | logAddError
  | logNoNewData
  | logFetchError
deriving DecidableEq, Repr

/-! ### String helpers: Python `str.replace(pat, "")`, `str.strip()`, `str.split(":")[-1]` -/

/-- `leadMatch pat l` is true when `pat` occurs at the head of `l`. -/
def leadMatch : List Char → List Char → Bool
  | [], _ => true
  | _ :: _, [] => false
  | p :: ps, c :: cs => p = c && leadMatch ps cs

/-- `occursIn pat l` is true when `pat` occurs somewhere in `l`. -/
def occursIn (pat : List Char) : List Char → Bool
  | [] => leadMatch pat []
  | c :: rest => leadMatch pat (c :: rest) || occursIn pat rest

/-- Fuelled scan for Python's `str.replace(pat, "")`: delete every (non-overlapping,
leftmost-first) occurrence of `pat`.  One list element is consumed per step, so
`fuel = length` is always enough. -/
def removeAllGo (pat : List Char) : Nat → List Char → List Char
  | _, [] => []
  | 0, s => s
  | fuel + 1, c :: rest =>
    if leadMatch pat (c :: rest) then removeAllGo pat fuel (List.drop (pat.length - 1) rest)
    else c :: removeAllGo pat fuel rest

/-- Python `s.replace(pat, "")` on char lists. -/
def removeAll (pat s : List Char) : List Char :=
  removeAllGo pat s.length s

/-- The whitespace set of Python's `str.strip()`, restricted to ASCII. -/
def isPySpace (c : Char) : Bool :=
  c = ' ' || c = '\t' || c = '\n' || c = '\r' || c = '\x0b' || c = '\x0c'

/-- Python `str.strip()`: drop leading and trailing whitespace. -/
def pyStrip (l : List Char) : List Char :=
  ((l.dropWhile isPySpace).reverse.dropWhile isPySpace).reverse

/-- The noise marker removed by `handle_now_playing`. -/
def cleanChars : List Char := "(Clean)".toList

/-- `kcpr.py` line 140: `f"{artist} - {song}".replace("(Clean)", "").strip()`,
as a function of the combined string (the spec's `normalize`; the plain name
collides with Mathlib). -/
def normalizeQuery (s : String) : String :=
  String.mk (pyStrip (removeAll cleanChars s.toList))

/-- Python `s.split(":")[-1]`: the segment after the last colon. -/
def lastSplitColon (s : String) : String :=
  String.mk ((s.toList.reverse.takeWhile (fun c => c ≠ ':')).reverse)

/-! ### `difflib.SequenceMatcher(None, a, b).ratio()`

`Utils.str_similarity` delegates to the standard library's sequence matcher;
the model below follows `difflib` with `isjunk = None`: the `b2j` index with
the autojunk purge of popular elements, the `j2len` dynamic program of
`find_longest_match` with its two non-junk extension loops (the junk loops are
no-ops since `bjunk` is empty), and the recursive region split of
`get_matching_blocks`, whose matched sizes are summed for `ratio`. -/

/-- Indices of `c` in `b`, ascending (`b2j` before the autojunk purge). -/
def b2jBase (b : List Char) (c : Char) : List Nat :=
  (List.range b.length).filter (fun j => decide (b.get? j = some c))

/-- `b2j` with the autojunk rule: for `len(b) >= 200`, elements occurring more
than `len(b) // 100 + 1` times are purged from the index. -/
def b2j (b : List Char) (c : Char) : List Nat :=
  if 200 ≤ b.length ∧ b.length / 100 + 1 < (b2jBase b c).length then []
  else b2jBase b c

/-- The indices scanned by the inner loop of `find_longest_match` at row `i`:
members of `b2j[a[i]]` that lie in `[blo, bhi)`. -/
def validJs (bj : Char → List Nat) (c : Char) (blo bhi : Nat) : List Nat :=
  (bj c).filter (fun j => decide (blo ≤ j) && decide (j < bhi))

/-- `k = j2len.get(j-1, 0) + 1`: the length of the match ending at `(i, j)`. -/
def rowK (oldJ : Nat → Nat) (j : Nat) : Nat :=
  (if j = 0 then 0 else oldJ (j - 1)) + 1

/-- The next `j2len` row, as a function. -/
def newRow (oldJ : Nat → Nat) (js : List Nat) : Nat → Nat :=
  fun j => if j ∈ js then rowK oldJ j else 0

/-- `besti, bestj, bestsize` of `find_longest_match`. -/
structure FlmBest where
  besti : Nat
  bestj : Nat
  bestsize : Nat
deriving DecidableEq, Repr

/-- The best-block updates of one row: `if k > bestsize: best = (i-k+1, j-k+1, k)`. -/
def flmRow (oldJ : Nat → Nat) (i : Nat) (js : List Nat) (best : FlmBest) : FlmBest :=
  js.foldl
    (fun b j =>
      let k := rowK oldJ j
      if b.bestsize < k then ⟨i + 1 - k, j + 1 - k, k⟩ else b)
    best

/-- The outer `for i in range(alo, ahi)` loop of `find_longest_match`. -/
def flmLoop (a : List Char) (bj : Char → List Nat) (blo bhi : Nat) :
    Nat → Nat → ((Nat → Nat) × FlmBest) → ((Nat → Nat) × FlmBest)
  | _, 0, st => st
  | i, n + 1, st =>
    let js := validJs bj (a.getD i ' ') blo bhi
    flmLoop a bj blo bhi (i + 1) n (newRow st.1 js, flmRow st.1 i js st.2)

/-- `while besti > alo and bestj > blo and a[besti-1] == b[bestj-1]`: the length
of the leftward extension of the best block. -/
def extLeft (a b : List Char) (alo blo : Nat) : Nat → Nat → Nat
  | i + 1, j + 1 =>
    if alo ≤ i ∧ blo ≤ j ∧ a.getD i ' ' = b.getD j ' ' then extLeft a b alo blo i j + 1
    else 0
  | _, _ => 0

/-- `while besti+bestsize < ahi and ... a[besti+bestsize] == b[bestj+bestsize]`:
the rightward extension, fuelled (the caller passes fuel `ahi`, which bounds
the number of iterations). -/
def extRight (a b : List Char) (ahi bhi : Nat) : Nat → Nat → Nat → Nat
  | 0, _, _ => 0
  | fuel + 1, i, j =>
    if i < ahi ∧ j < bhi ∧ a.getD i ' ' = b.getD j ' ' then
      extRight a b ahi bhi fuel (i + 1) (j + 1) + 1
    else 0

/-- `SequenceMatcher.find_longest_match` on the region `a[alo:ahi]`, `b[blo:bhi]`. -/
def find_longest_match (a b : List Char) (bj : Char → List Nat)
    (alo ahi blo bhi : Nat) : FlmBest :=
  let st := flmLoop a bj blo bhi alo (ahi - alo) (fun _ => 0, ⟨alo, blo, 0⟩)
  let dl := extLeft a b alo blo st.2.besti st.2.bestj
  let i2 := st.2.besti - dl
  let j2 := st.2.bestj - dl
  let dr := extRight a b ahi bhi ahi (i2 + st.2.bestsize + dl) (j2 + st.2.bestsize + dl)
  ⟨i2, j2, st.2.bestsize + dl + dr⟩

/-- Total size of the matching blocks of the region, following the recursive
split of `get_matching_blocks` (queue order does not change the sum).  Each
level of recursion removes at least two elements from the region, so the fuel
passed at top level is always sufficient. -/
def tmGo (a b : List Char) (bj : Char → List Nat) : Nat → Nat → Nat → Nat → Nat → Nat
  | 0, _, _, _, _ => 0
  | fuel + 1, alo, ahi, blo, bhi =>
    let m := find_longest_match a b bj alo ahi blo bhi
    if m.bestsize = 0 then 0
    else
      tmGo a b bj fuel alo m.besti blo m.bestj + m.bestsize +
        tmGo a b bj fuel (m.besti + m.bestsize) ahi (m.bestj + m.bestsize) bhi

/-- `sum(triple[-1] for triple in self.get_matching_blocks())`. -/
def get_matching_total (a b : List Char) : Nat :=
  tmGo a b (b2j b) (a.length + b.length + 1) 0 a.length 0 b.length

/-- `Utils.str_similarity(lhs_title, rhs_title)`:
`SequenceMatcher(None, lhs_title, rhs_title).ratio()`, i.e.
`2.0 * matches / (len(a) + len(b))`, or `1.0` when both are empty. -/
def str_similarity (lhs_title rhs_title : String) : ℚ :=
  let length := lhs_title.length + rhs_title.length
  if length = 0 then 1
  else 2 * (get_matching_total lhs_title.toList rhs_title.toList : ℚ) / (length : ℚ)

/-! ### `spotify.py`: `SpotifyAuthManager` -/

/-- `SpotifyAuthManager.get_track(artist_name, title, similarity_threshold)`.
The remote `self.spotify.search` call is an oracle argument; its raised
exceptions arrive as `Except.error`.  The returned effect list records the
query string sent to the catalog; the second component is the returned value,
or the exception that propagates (`tracks[0]` and `track["artists"][0]` can
raise `IndexError`). -/
def get_track (search : String → Except PyErr (List Candidate))
    (artist_name title : String) (similarity_threshold : ℚ) :
    List Effect × Except PyErr String :=
  let query := artist_name ++ " " ++ title
  match search query with
  | Except.error e => ([Effect.searched query], Except.error e)
  | Except.ok tracks =>
    ([Effect.searched query],
      match tracks with
      | [] => Except.error PyErr.indexError
      | track :: _ =>
        if similarity_threshold = 0 then Except.ok track.uri
        else
          match track.artists with
          | [] => Except.error PyErr.indexError
          | artist :: _ =>
            let artist_similarity := str_similarity artist artist_name
            let title_similarity := str_similarity track.name title
            if similarity_threshold ≤ artist_similarity ∧
                similarity_threshold ≤ title_similarity then
              Except.ok track.uri
            else Except.ok "")

/-- Modelled from the spec: `Utils.divide_chunks` is called by
`add_tracks_to_playlist` and advertised by the `Utils` docstring
("list chunking"), but its body is absent from the source files; the spec
says the sequence "splits into chunks of at most 99 before issuing remote
append calls" (150 IDs → 99 and 51). One element is consumed per step,
so `fuel = length` always suffices. -/
def chunksGo : Nat → List String → List (List String)
  | _, [] => []
  | 0, _ => []
  | fuel + 1, l => l.take 99 :: chunksGo fuel (l.drop 99)

/-- Modelled from the spec: see `chunksGo`. -/
def divide_chunks (l : List String) : List (List String) :=
  chunksGo l.length l

/-- The `for chunk in chunks: self.spotify.playlist_add_items(...)` loop inside
the single `try` of `add_tracks_to_playlist`: each issued call is recorded
(a failing call is still issued), and the first raised error aborts the loop. -/
def playChunks (append : List String → Except PyErr Unit) (playlist_id : String) :
    List (List String) → List Effect × Option PyErr
  | [] => ([], none)
  | chunk :: rest =>
    match append chunk with
    | Except.error e => ([Effect.remoteAppend playlist_id chunk], some e)
    | Except.ok _ =>
      let r := playChunks append playlist_id rest
      (Effect.remoteAppend playlist_id chunk :: r.1, r.2)

/-- `SpotifyAuthManager.add_tracks_to_playlist(playlist_id, tracks)`: warn when
the list is exactly `['']`, then inside `try`: chunk when `len(tracks) >= 99`,
otherwise one direct `playlist_add_items` call; any raised error is caught and
logged (`logger.error`), never re-raised. -/
def add_tracks_to_playlist (append : List String → Except PyErr Unit)
    (playlist_id : String) (tracks : List String) : List Effect :=
  let warnEffs := if "" ∈ tracks ∧ tracks.length = 1 then [Effect.warnEmptyTrackId] else []
  let r :=
    if 99 ≤ tracks.length then playChunks append playlist_id (divide_chunks tracks)
    else
      match append tracks with
      | Except.error e => ([Effect.remoteAppend playlist_id tracks], some e)
      | Except.ok _ => ([Effect.remoteAppend playlist_id tracks], none)
  warnEffs ++ r.1 ++ (match r.2 with | some _ => [Effect.logAddError] | none => [])

/-- `SpotifyAuthManager.add_track_to_playlist(playlist_id, track_id)`. -/
def add_track_to_playlist (append : List String → Except PyErr Unit)
    (playlist_id : String) (track_id : String) : List Effect :=
  add_tracks_to_playlist append playlist_id [track_id]

/-! ### The two service variants -/

/-- The remote collaborators of a run, fixed at process start. -/
structure Env where
  search : String → Except PyErr (List Candidate)
  append : List String → Except PyErr Unit
  playlist_id : String

/-- Mutable state of `KcprSpotifyService` (and, with raw comparison strings,
of `KcprSpotifyScheduler`): `prev_data` and the in-memory membership list. -/
structure KcprState where
  prev_data : Option String
  spotify_playlist_track_uris : List String
deriving DecidableEq, Repr

/-- `KcprSpotifyService.handle_now_playing(artist, song)` from `kcpr.py`:
normalizes the comparison string, seeds `prev_data` on the first call, and on
a change updates `prev_data` first, resolves via `get_track` with threshold
`0.30`, and adds absent tracks.  The third component is an exception that
propagates to the caller (nothing here catches `get_track`'s errors). -/
def handle_now_playing (env : Env) (st : KcprState) (artist song : String) :
    KcprState × List Effect × Option PyErr :=
  let query := normalizeQuery (artist ++ " - " ++ song)
  let st0 := if st.prev_data = none then { st with prev_data := some query } else st
  if st0.prev_data ≠ some query then
    let st1 := { st0 with prev_data := some query }
    let r := get_track env.search artist song (3 / 10)
    match r.2 with
    | Except.error e => (st1, Effect.logNowPlaying query :: r.1, some e)
    | Except.ok track_uri =>
      let track_id := lastSplitColon track_uri
      if track_id ∉ st1.spotify_playlist_track_uris then
        if track_uri = "" then
          (st1, Effect.logNowPlaying query :: r.1 ++ [Effect.warnNotFound query], none)
        else
          let addEffs := add_track_to_playlist env.append env.playlist_id track_uri
          ({ st1 with spotify_playlist_track_uris :=
              st1.spotify_playlist_track_uris ++ [track_id] },
           Effect.logNowPlaying query :: r.1 ++ addEffs ++ [Effect.logAdded query], none)
      else
        (st1, Effect.logNowPlaying query :: r.1 ++ [Effect.warnAlreadyInPlaylist query], none)
  else (st0, [], none)

/-- One iteration of the `while True` body of `monitor_now_playing`:
`get_now_playing` catches its own errors and yields `none` on failure, in
which case the cycle is skipped. -/
def monitor_cycle (env : Env) (st : KcprState) (poll : Option (String × String)) :
    KcprState × List Effect × Option PyErr :=
  match poll with
  | none => (st, [Effect.logFetchError], none)
  | some (artist, song) => handle_now_playing env st artist song

/-- `monitor_now_playing` over a finite schedule of polls: the `try` around the
`while` loop catches only `asyncio.CancelledError`, so the first exception
raised by a cycle terminates the loop (remaining polls are not processed). -/
def monitor_now_playing (env : Env) :
    KcprState → List (Option (String × String)) → KcprState × List Effect × Option PyErr
  | st, [] => (st, [], none)
  | st, p :: ps =>
    let c := monitor_cycle env st p
    match c.2.2 with
    | some e => (c.1, c.2.1, some e)
    | none =>
      let r := monitor_now_playing env c.1 ps
      (r.1, c.2.1 ++ r.2.1, r.2.2)

/-- `KcprSpotifyScheduler.__spotify_kcpr_event` from `scheduler.py`: no
normalization of the comparison string, membership tested against the full
URI, `prev_data` updated only on the added path, and the resolved URI appended
to the local list twice (lines 126 and 140). -/
def spotify_kcpr_event (env : Env) (st : KcprState) (artist song : String) :
    KcprState × List Effect × Option PyErr :=
  let query := artist ++ " - " ++ song
  let st0 := if st.prev_data = none then { st with prev_data := some query } else st
  if st0.prev_data ≠ some query then
    let r := get_track env.search artist song (3 / 10)
    match r.2 with
    | Except.error e => (st0, Effect.logNowPlaying query :: r.1, some e)
    | Except.ok track_uri =>
      if track_uri ∉ st0.spotify_playlist_track_uris then
        let addEffs := add_track_to_playlist env.append env.playlist_id track_uri
        ({ st0 with
            prev_data := some query
            spotify_playlist_track_uris :=
              (st0.spotify_playlist_track_uris ++ [track_uri]) ++ [track_uri] },
         Effect.logNowPlaying query :: r.1 ++ addEffs ++ [Effect.logAdded query], none)
      else
        (st0, Effect.logNowPlaying query :: r.1 ++ [Effect.warnAlreadyInPlaylist query], none)
  else (st0, [Effect.logNoNewData], none)

/-- A run of scheduled `__spotify_kcpr_event` ticks; an uncaught exception
stops the run (the driving `while True: schedule.run_pending()` has no
handler). Effects are collected per tick. -/
def sched_run (env : Env) : KcprState → List (String × String) → KcprState × List (List Effect)
  | st, [] => (st, [])
  | st, (artist, song) :: ps =>
    let c := spotify_kcpr_event env st artist song
    match c.2.2 with
    | some _ => (c.1, [c.2.1])
    | none =>
      let r := sched_run env c.1 ps
      (r.1, c.2.1 :: r.2)

/-! ### Observation helpers -/

/-- Whether the change-handling procedure fired in a cycle: a catalog search
was issued. -/
def firesOf (effs : List Effect) : Bool :=
  effs.any (fun e => match e with | Effect.searched _ => true | _ => false)

/-- The query of a `searched` effect. -/
def searchedQuery : Effect → Option String
  | Effect.searched q => some q
  | _ => none

/-- Is the effect a remote append call? -/
def isRemoteAppend : Effect → Bool
  | Effect.remoteAppend _ _ => true
  | _ => false

/-- The track-ID lists of the remote append calls among the effects, in order. -/
def appendCalls (effs : List Effect) : List (List String) :=
  effs.filterMap (fun e => match e with | Effect.remoteAppend _ ts => some ts | _ => none)

/-- The chunks submitted before the loop aborts: every chunk up to and
including the first one whose append fails. -/
def chunksUpToFirstFailure (append : List String → Except PyErr Unit) :
    List (List String) → List (List String)
  | [] => []
  | c :: rest =>
    match append c with
    | Except.error _ => [c]
    | Except.ok _ => c :: chunksUpToFirstFailure append rest

/-! ### Concrete collaborators and inputs used by the claim theorems -/

def okAppend : List String → Except PyErr Unit := fun _ => Except.ok ()

def envC2 : Env where
  search := fun q => if q = "B b" then Except.ok [⟨["B"], "b", "u"⟩] else Except.ok []
  append := okAppend
  playlist_id := "P"

def pollsC2 : List (String × String) :=
  [("A", "a"), ("A", "a"), ("A", "a"), ("B", "b"), ("B", "b"), ("A", "a")]

def envC3 : Env where
  search := fun _ => Except.ok []
  append := okAppend
  playlist_id := "P"

def envC5 : Env where
  search := fun _ => Except.error PyErr.transportError
  append := okAppend
  playlist_id := "P"

def envC5b : Env where
  search := fun q =>
    if q = "B b" then Except.ok [⟨["B"], "b", "u1"⟩] else Except.ok [⟨["C"], "c", "u2"⟩]
  append := fun _ => Except.error PyErr.transportError
  playlist_id := "P"

def pollsC5 : List (Option (String × String)) :=
  [some ("A", "a"), some ("B", "b"), some ("C", "c")]

def envC6 : Env where
  search := fun q =>
    if q = "B b" then Except.ok [⟨["B"], "b", "u"⟩] else Except.ok [⟨["C"], "c", "u"⟩]
  append := okAppend
  playlist_id := "P"

def envC9 : Env where
  search := fun _ => Except.ok [⟨["z"], "z", "u"⟩]
  append := okAppend
  playlist_id := "P"

def ids150 : List String := List.replicate 150 "x"

def ids99 : List String := List.replicate 99 "x"

def failOn99 : List String → Except PyErr Unit :=
  fun c => if c.length = 99 then Except.error PyErr.transportError else Except.ok ()

def c4search : String → Except PyErr (List Candidate) :=
  fun _ => Except.ok [⟨["a"], "b", "u"⟩]

def c4cand : Candidate := ⟨["a"], "b", "u"⟩


/-! ### Soundness of the matcher model

Every block reported by `find_longest_match` lies inside its region and its
characters really match; hence the total matched size is at most the length
of either side, with equality only for identical strings.  (Only soundness is
needed: `ratio = 1` forces equality regardless of which blocks the heuristic
picks.) -/

/-- A candidate block lies inside the region and its characters match. -/
def FlmSound (a b : List Char) (alo ahi blo bhi : Nat) (m : FlmBest) : Prop :=
  alo ≤ m.besti ∧ blo ≤ m.bestj ∧ m.besti + m.bestsize ≤ ahi ∧ m.bestj + m.bestsize ≤ bhi ∧
  ∀ t, t < m.bestsize → a.getD (m.besti + t) ' ' = b.getD (m.bestj + t) ' '

/-- Invariant of the `j2len` row before processing index `i`: a positive entry
`f j` describes a run of `f j` matches ending at `(i - 1, j)` that starts
inside the region. -/
def RowOk (a b : List Char) (alo blo bhi : Nat) (i : Nat) (f : Nat → Nat) : Prop :=
  ∀ j, 0 < f j → alo + f j ≤ i ∧ blo + f j ≤ j + 1 ∧ j < bhi ∧
    ∀ t, t < f j → a.getD (i - f j + t) ' ' = b.getD (j + 1 - f j + t) ' '

theorem getD_of_getQ : ∀ (l : List Char) (n : Nat) (c d : Char),
    l.get? n = some c → l.getD n d = c
  | _ :: _, 0, _, _, h => by
    have hx := Option.some.inj h
    exact hx
  | _ :: xs, n + 1, c, d, h => getD_of_getQ xs n c d h
  | [], _, _, _, h => nomatch h

theorem b2j_mem {b : List Char} {c : Char} {j : Nat} (h : j ∈ b2j b c) :
    b.get? j = some c := by
  have hb : j ∈ b2jBase b c := by
    unfold b2j at h
    split at h
    · simp at h
    · exact h
  have hm := List.mem_filter.mp hb
  exact of_decide_eq_true hm.2

theorem validJs_mem {bj : Char → List Nat} {c : Char} {blo bhi j : Nat}
    (h : j ∈ validJs bj c blo bhi) : j ∈ bj c ∧ blo ≤ j ∧ j < bhi := by
  have hm := List.mem_filter.mp h
  have hd := hm.2
  rw [Bool.and_eq_true, decide_eq_true_eq, decide_eq_true_eq] at hd
  exact ⟨hm.1, hd.1, hd.2⟩

theorem rowK_sound {a b : List Char} {bj : Char → List Nat} {alo blo bhi i j : Nat}
    {f : Nat → Nat}
    (hbj : ∀ c j, j ∈ bj c → b.get? j = some c)
    (hal : alo ≤ i) (hOk : RowOk a b alo blo bhi i f)
    (hj : j ∈ validJs bj (a.getD i ' ') blo bhi) :
    alo + rowK f j ≤ i + 1 ∧ blo + rowK f j ≤ j + 1 ∧ j < bhi ∧
      ∀ t, t < rowK f j →
        a.getD (i + 1 - rowK f j + t) ' ' = b.getD (j + 1 - rowK f j + t) ' ' := by
  obtain ⟨hmem, hblo, hbhi⟩ := validJs_mem hj
  have hcj : b.getD j ' ' = a.getD i ' ' := getD_of_getQ _ _ _ _ (hbj _ _ hmem)
  by_cases h0 : j = 0
  · have hk : rowK f j = 1 := by rw [rowK, if_pos h0]
    rw [hk]
    subst h0
    refine ⟨by omega, by omega, hbhi, ?_⟩
    intro t ht
    have ht0 : t = 0 := by omega
    subst ht0
    have e1 : i + 1 - 1 + 0 = i := by omega
    have e2 : 0 + 1 - 1 + 0 = 0 := by omega
    rw [e1, e2]
    exact hcj.symm
  · rcases Nat.eq_zero_or_pos (f (j - 1)) with hm | hm
    · have hk : rowK f j = 1 := by rw [rowK, if_neg h0, hm]
      rw [hk]
      refine ⟨by omega, by omega, hbhi, ?_⟩
      intro t ht
      have ht0 : t = 0 := by omega
      subst ht0
      have e1 : i + 1 - 1 + 0 = i := by omega
      have e2 : j + 1 - 1 + 0 = j := by omega
      rw [e1, e2]
      exact hcj.symm
    · have hk : rowK f j = f (j - 1) + 1 := by rw [rowK, if_neg h0]
      obtain ⟨h1, h2, _, hmt⟩ := hOk (j - 1) hm
      rw [hk]
      refine ⟨by omega, by omega, hbhi, ?_⟩
      intro t ht
      rcases Nat.lt_or_ge t (f (j - 1)) with htm | htm
      · have e1 : i + 1 - (f (j - 1) + 1) + t = i - f (j - 1) + t := by omega
        have e2 : j + 1 - (f (j - 1) + 1) + t = j - 1 + 1 - f (j - 1) + t := by omega
        rw [e1, e2]
        exact hmt t htm
      · have ht0 : t = f (j - 1) := by omega
        subst ht0
        have e1 : i + 1 - (f (j - 1) + 1) + f (j - 1) = i := by omega
        have e2 : j + 1 - (f (j - 1) + 1) + f (j - 1) = j := by omega
        rw [e1, e2]
        exact hcj.symm

theorem rowOk_step {a b : List Char} {bj : Char → List Nat} {alo blo bhi i : Nat}
    {f : Nat → Nat}
    (hbj : ∀ c j, j ∈ bj c → b.get? j = some c)
    (hal : alo ≤ i) (hOk : RowOk a b alo blo bhi i f) :
    RowOk a b alo blo bhi (i + 1) (newRow f (validJs bj (a.getD i ' ') blo bhi)) := by
  intro j hpos
  by_cases hj : j ∈ validJs bj (a.getD i ' ') blo bhi
  · have hval : newRow f (validJs bj (a.getD i ' ') blo bhi) j = rowK f j := if_pos hj
    rw [hval]
    exact rowK_sound hbj hal hOk hj
  · have hval : newRow f (validJs bj (a.getD i ' ') blo bhi) j = 0 := if_neg hj
    rw [hval] at hpos
    omega

theorem flmRow_sound {a b : List Char} {bj : Char → List Nat} {alo ahi blo bhi i : Nat}
    {f : Nat → Nat}
    (hbj : ∀ c j, j ∈ bj c → b.get? j = some c)
    (hal : alo ≤ i) (hia : i < ahi) (hOk : RowOk a b alo blo bhi i f) :
    ∀ (js : List Nat) (best : FlmBest),
      (∀ j ∈ js, j ∈ validJs bj (a.getD i ' ') blo bhi) →
      FlmSound a b alo ahi blo bhi best →
      FlmSound a b alo ahi blo bhi (flmRow f i js best)
  | [], _, _, hb => hb
  | j :: js, best, hmem, hb => by
    have hj := hmem j (List.mem_cons_self j js)
    obtain ⟨k1, k2, k3, k4⟩ := rowK_sound hbj hal hOk hj
    have hnext : FlmSound a b alo ahi blo bhi
        (if best.bestsize < rowK f j then ⟨i + 1 - rowK f j, j + 1 - rowK f j, rowK f j⟩
         else best) := by
      split
      · refine ⟨?_, ?_, ?_, ?_, ?_⟩
        · show alo ≤ i + 1 - rowK f j
          omega
        · show blo ≤ j + 1 - rowK f j
          omega
        · show i + 1 - rowK f j + rowK f j ≤ ahi
          omega
        · show j + 1 - rowK f j + rowK f j ≤ bhi
          omega
        · show ∀ t, t < rowK f j →
            a.getD (i + 1 - rowK f j + t) ' ' = b.getD (j + 1 - rowK f j + t) ' '
          exact k4
      · exact hb
    have hrest := flmRow_sound hbj hal hia hOk js
      (if best.bestsize < rowK f j then ⟨i + 1 - rowK f j, j + 1 - rowK f j, rowK f j⟩
       else best)
      (fun x hx => hmem x (List.mem_cons_of_mem j hx)) hnext
    simpa [flmRow, List.foldl] using hrest

theorem flmLoop_sound {a b : List Char} {bj : Char → List Nat} {alo ahi blo bhi : Nat}
    (hbj : ∀ c j, j ∈ bj c → b.get? j = some c) :
    ∀ (n i : Nat) (st : (Nat → Nat) × FlmBest),
      alo ≤ i → i + n ≤ ahi →
      RowOk a b alo blo bhi i st.1 → FlmSound a b alo ahi blo bhi st.2 →
      FlmSound a b alo ahi blo bhi (flmLoop a bj blo bhi i n st).2
  | 0, _, _, _, _, _, hs => hs
  | n + 1, i, st, hal, hn, hrow, hs => by
    have hia : i < ahi := by omega
    have h1 := rowOk_step hbj hal hrow
    have h2 := flmRow_sound hbj hal hia hrow (validJs bj (a.getD i ' ') blo bhi) st.2
      (fun _ hx => hx) hs
    have hrec := flmLoop_sound hbj n (i + 1)
      (newRow st.1 (validJs bj (a.getD i ' ') blo bhi),
       flmRow st.1 i (validJs bj (a.getD i ' ') blo bhi) st.2)
      (by omega) (by omega) h1 h2
    simpa [flmLoop] using hrec

theorem extLeft_sound {a b : List Char} {alo blo : Nat} :
    ∀ i j, extLeft a b alo blo i j ≤ i ∧ extLeft a b alo blo i j ≤ j ∧
      (0 < extLeft a b alo blo i j →
        alo + extLeft a b alo blo i j ≤ i ∧ blo + extLeft a b alo blo i j ≤ j) ∧
      ∀ t, t < extLeft a b alo blo i j →
        a.getD (i - extLeft a b alo blo i j + t) ' ' =
          b.getD (j - extLeft a b alo blo i j + t) ' '
  | 0, j => by
    have he : extLeft a b alo blo 0 j = 0 := by cases j <;> rfl
    rw [he]
    exact ⟨by omega, by omega, by omega, fun t ht => absurd ht (by omega)⟩
  | i + 1, 0 => by
    have he : extLeft a b alo blo (i + 1) 0 = 0 := rfl
    rw [he]
    exact ⟨by omega, by omega, by omega, fun t ht => absurd ht (by omega)⟩
  | i + 1, j + 1 => by
    obtain ⟨d1, d2, d3, d4⟩ := @extLeft_sound a b alo blo i j
    by_cases hc : alo ≤ i ∧ blo ≤ j ∧ a.getD i ' ' = b.getD j ' '
    · have he : extLeft a b alo blo (i + 1) (j + 1) = extLeft a b alo blo i j + 1 := if_pos hc
      rw [he]
      obtain ⟨hc1, hc2, hc3⟩ := hc
      refine ⟨by omega, by omega, ?_, ?_⟩
      · intro _
        rcases Nat.eq_zero_or_pos (extLeft a b alo blo i j) with h0 | h0
        · rw [h0]
          omega
        · have := d3 h0
          omega
      · intro t ht
        rcases Nat.lt_or_ge t (extLeft a b alo blo i j) with htd | htd
        · have e1 : i + 1 - (extLeft a b alo blo i j + 1) + t =
              i - extLeft a b alo blo i j + t := by omega
          have e2 : j + 1 - (extLeft a b alo blo i j + 1) + t =
              j - extLeft a b alo blo i j + t := by omega
          rw [e1, e2]
          exact d4 t htd
        · have ht0 : t = extLeft a b alo blo i j := by omega
          subst ht0
          have e1 : i + 1 - (extLeft a b alo blo i j + 1) + extLeft a b alo blo i j = i := by
            omega
          have e2 : j + 1 - (extLeft a b alo blo i j + 1) + extLeft a b alo blo i j = j := by
            omega
          rw [e1, e2]
          exact hc3
    · have he : extLeft a b alo blo (i + 1) (j + 1) = 0 := if_neg hc
      rw [he]
      exact ⟨by omega, by omega, by omega, fun t ht => absurd ht (by omega)⟩

theorem extRight_sound {a b : List Char} {ahi bhi : Nat} :
    ∀ fuel i j t, t < extRight a b ahi bhi fuel i j →
      i + t < ahi ∧ j + t < bhi ∧ a.getD (i + t) ' ' = b.getD (j + t) ' '
  | 0, i, j, t, ht => by
    rw [show extRight a b ahi bhi 0 i j = 0 from rfl] at ht
    exact absurd ht (by omega)
  | fuel + 1, i, j, t, ht => by
    by_cases hc : i < ahi ∧ j < bhi ∧ a.getD i ' ' = b.getD j ' '
    · have he : extRight a b ahi bhi (fuel + 1) i j =
          extRight a b ahi bhi fuel (i + 1) (j + 1) + 1 := if_pos hc
      rw [he] at ht
      cases t with
      | zero => exact ⟨by omega, by omega, hc.2.2⟩
      | succ t' =>
        obtain ⟨r1, r2, r3⟩ := @extRight_sound a b ahi bhi fuel (i + 1) (j + 1) t' (by omega)
        refine ⟨by omega, by omega, ?_⟩
        have e1 : i + (t' + 1) = i + 1 + t' := by omega
        have e2 : j + (t' + 1) = j + 1 + t' := by omega
        rw [e1, e2]
        exact r3
    · have he : extRight a b ahi bhi (fuel + 1) i j = 0 := if_neg hc
      rw [he] at ht
      exact absurd ht (by omega)

theorem flm_assemble {a b : List Char} {alo ahi blo bhi : Nat} {B : FlmBest}
    (hs : FlmSound a b alo ahi blo bhi B) :
    FlmSound a b alo ahi blo bhi
      ⟨B.besti - extLeft a b alo blo B.besti B.bestj,
       B.bestj - extLeft a b alo blo B.besti B.bestj,
       B.bestsize + extLeft a b alo blo B.besti B.bestj +
         extRight a b ahi bhi ahi
           (B.besti - extLeft a b alo blo B.besti B.bestj + B.bestsize +
             extLeft a b alo blo B.besti B.bestj)
           (B.bestj - extLeft a b alo blo B.besti B.bestj + B.bestsize +
             extLeft a b alo blo B.besti B.bestj)⟩ := by
  obtain ⟨s1, s2, s3, s4, s5⟩ := hs
  obtain ⟨d1, d2, d3, d4⟩ :=
    @extLeft_sound a b alo blo B.besti B.bestj
  set dl := extLeft a b alo blo B.besti B.bestj with hdl
  have hb1 : alo ≤ B.besti - dl := by
    rcases Nat.eq_zero_or_pos dl with h0 | h0
    · omega
    · have := d3 h0
      omega
  have hb2 : blo ≤ B.bestj - dl := by
    rcases Nat.eq_zero_or_pos dl with h0 | h0
    · omega
    · have := d3 h0
      omega
  have hb5 : ∀ t, t < B.bestsize + dl →
      a.getD (B.besti - dl + t) ' ' = b.getD (B.bestj - dl + t) ' ' := by
    intro t ht
    rcases Nat.lt_or_ge t dl with htd | htd
    · exact d4 t htd
    · have e1 : B.besti - dl + t = B.besti + (t - dl) := by omega
      have e2 : B.bestj - dl + t = B.bestj + (t - dl) := by omega
      rw [e1, e2]
      exact s5 (t - dl) (by omega)
  set dr := extRight a b ahi bhi ahi (B.besti - dl + B.bestsize + dl)
      (B.bestj - dl + B.bestsize + dl) with hdr
  have hr3 : B.besti - dl + (B.bestsize + dl + dr) ≤ ahi := by
    rcases Nat.eq_zero_or_pos dr with h0 | h0
    · omega
    · obtain ⟨r1, _, _⟩ := @extRight_sound a b ahi bhi ahi
        (B.besti - dl + B.bestsize + dl) (B.bestj - dl + B.bestsize + dl) (dr - 1) (by omega)
      omega
  have hr4 : B.bestj - dl + (B.bestsize + dl + dr) ≤ bhi := by
    rcases Nat.eq_zero_or_pos dr with h0 | h0
    · omega
    · obtain ⟨_, r2, _⟩ := @extRight_sound a b ahi bhi ahi
        (B.besti - dl + B.bestsize + dl) (B.bestj - dl + B.bestsize + dl) (dr - 1) (by omega)
      omega
  have hr5 : ∀ t, t < B.bestsize + dl + dr →
      a.getD (B.besti - dl + t) ' ' = b.getD (B.bestj - dl + t) ' ' := by
    intro t ht
    rcases Nat.lt_or_ge t (B.bestsize + dl) with htb | htb
    · exact hb5 t htb
    · obtain ⟨_, _, r3⟩ := @extRight_sound a b ahi bhi ahi
        (B.besti - dl + B.bestsize + dl) (B.bestj - dl + B.bestsize + dl)
        (t - (B.bestsize + dl)) (by omega)
      have e1 : B.besti - dl + t =
          B.besti - dl + B.bestsize + dl + (t - (B.bestsize + dl)) := by omega
      have e2 : B.bestj - dl + t =
          B.bestj - dl + B.bestsize + dl + (t - (B.bestsize + dl)) := by omega
      rw [e1, e2]
      exact r3
  exact ⟨hb1, hb2, hr3, hr4, hr5⟩

theorem find_longest_match_sound {a b : List Char} {bj : Char → List Nat}
    {alo ahi blo bhi : Nat}
    (hbj : ∀ c j, j ∈ bj c → b.get? j = some c)
    (hab : alo ≤ ahi) (hbb : blo ≤ bhi) :
    FlmSound a b alo ahi blo bhi (find_longest_match a b bj alo ahi blo bhi) := by
  have hinit : FlmSound a b alo ahi blo bhi ⟨alo, blo, 0⟩ := by
    refine ⟨Nat.le_refl _, Nat.le_refl _, ?_, ?_, ?_⟩
    · show alo + 0 ≤ ahi
      omega
    · show blo + 0 ≤ bhi
      omega
    · show ∀ t, t < 0 → a.getD (alo + t) ' ' = b.getD (blo + t) ' '
      intro t ht
      exact absurd ht (by omega)
  have hrow0 : RowOk a b alo blo bhi alo (fun _ => 0) := by
    intro j hj
    simp at hj
  have hloop := flmLoop_sound hbj (ahi - alo) alo ((fun _ => 0), ⟨alo, blo, 0⟩)
    (Nat.le_refl _) (by omega) hrow0 hinit
  exact flm_assemble hloop

theorem tmGo_le {a b : List Char} {bj : Char → List Nat}
    (hbj : ∀ c j, j ∈ bj c → b.get? j = some c) :
    ∀ (fuel alo ahi blo bhi : Nat), alo ≤ ahi → blo ≤ bhi →
      alo + tmGo a b bj fuel alo ahi blo bhi ≤ ahi ∧
      blo + tmGo a b bj fuel alo ahi blo bhi ≤ bhi
  | 0, alo, ahi, blo, bhi, hab, hbb => by
    rw [show tmGo a b bj 0 alo ahi blo bhi = 0 from rfl]
    omega
  | fuel + 1, alo, ahi, blo, bhi, hab, hbb => by
    have hs := @find_longest_match_sound a b bj alo ahi blo bhi hbj hab hbb
    simp only [tmGo]
    set m := find_longest_match a b bj alo ahi blo bhi with hm
    obtain ⟨s1, s2, s3, s4, s5⟩ := hs
    by_cases h0 : m.bestsize = 0
    · rw [if_pos h0]
      omega
    · rw [if_neg h0]
      obtain ⟨l1, l2⟩ := @tmGo_le a b bj hbj fuel alo m.besti blo m.bestj s1 s2
      obtain ⟨r1, r2⟩ := @tmGo_le a b bj hbj fuel (m.besti + m.bestsize) ahi (m.bestj + m.bestsize) bhi s3 s4
      omega

theorem tmGo_eq {a b : List Char} {bj : Char → List Nat}
    (hbj : ∀ c j, j ∈ bj c → b.get? j = some c) :
    ∀ (fuel alo ahi blo bhi : Nat), alo ≤ ahi → blo ≤ bhi →
      alo + tmGo a b bj fuel alo ahi blo bhi = ahi →
      blo + tmGo a b bj fuel alo ahi blo bhi = bhi →
      ∀ t, alo + t < ahi → a.getD (alo + t) ' ' = b.getD (blo + t) ' '
  | 0, alo, ahi, blo, bhi, _, _, hea, _, t, ht => by
    rw [show tmGo a b bj 0 alo ahi blo bhi = 0 from rfl] at hea
    omega
  | fuel + 1, alo, ahi, blo, bhi, hab, hbb, hea, heb, t, ht => by
    have hs := @find_longest_match_sound a b bj alo ahi blo bhi hbj hab hbb
    simp only [tmGo] at hea heb
    set m := find_longest_match a b bj alo ahi blo bhi with hm
    obtain ⟨s1, s2, s3, s4, s5⟩ := hs
    by_cases h0 : m.bestsize = 0
    · rw [if_pos h0] at hea
      omega
    · rw [if_neg h0] at hea heb
      obtain ⟨l1, l2⟩ := @tmGo_le a b bj hbj fuel alo m.besti blo m.bestj s1 s2
      obtain ⟨r1, r2⟩ := @tmGo_le a b bj hbj fuel (m.besti + m.bestsize) ahi (m.bestj + m.bestsize) bhi s3 s4
      have hL1 : alo + tmGo a b bj fuel alo m.besti blo m.bestj = m.besti := by omega
      have hL2 : blo + tmGo a b bj fuel alo m.besti blo m.bestj = m.bestj := by omega
      have hR1 : m.besti + m.bestsize +
          tmGo a b bj fuel (m.besti + m.bestsize) ahi (m.bestj + m.bestsize) bhi = ahi := by
        omega
      have hR2 : m.bestj + m.bestsize +
          tmGo a b bj fuel (m.besti + m.bestsize) ahi (m.bestj + m.bestsize) bhi = bhi := by
        omega
      rcases Nat.lt_or_ge (alo + t) m.besti with h1 | h1
      · exact @tmGo_eq a b bj hbj fuel alo m.besti blo m.bestj s1 s2 hL1 hL2 t h1
      · rcases Nat.lt_or_ge (alo + t) (m.besti + m.bestsize) with h2 | h2
        · have e1 : alo + t = m.besti + (alo + t - m.besti) := by omega
          have e2 : blo + t = m.bestj + (alo + t - m.besti) := by omega
          rw [e1, e2]
          exact s5 (alo + t - m.besti) (by omega)
        · have e1 : alo + t = m.besti + m.bestsize + (alo + t - m.besti - m.bestsize) := by
            omega
          have e2 : blo + t = m.bestj + m.bestsize + (alo + t - m.besti - m.bestsize) := by
            omega
          rw [e1, e2]
          exact @tmGo_eq a b bj hbj fuel (m.besti + m.bestsize) ahi (m.bestj + m.bestsize) bhi
            s3 s4 hR1 hR2 (alo + t - m.besti - m.bestsize) (by omega)

theorem get_matching_total_le (a b : List Char) :
    get_matching_total a b ≤ a.length ∧ get_matching_total a b ≤ b.length := by
  have h := @tmGo_le a b (b2j b) (fun c j hj => b2j_mem hj)
    (a.length + b.length + 1) 0 a.length 0 b.length (by omega) (by omega)
  unfold get_matching_total
  omega

theorem list_eq_of_getD : ∀ (l1 l2 : List Char), l1.length = l2.length →
    (∀ t, t < l1.length → l1.getD t ' ' = l2.getD t ' ') → l1 = l2
  | [], [], _, _ => rfl
  | [], _ :: _, h, _ => by simp at h
  | _ :: _, [], h, _ => by simp at h
  | c1 :: t1, c2 :: t2, h, hp => by
    have h0 : c1 = c2 := hp 0 (by simp)
    have hlen : t1.length = t2.length := by
      simp only [List.length_cons] at h
      omega
    have ht : t1 = t2 := list_eq_of_getD t1 t2 hlen
      (fun t htl => hp (t + 1) (by simp only [List.length_cons]; omega))
    rw [h0, ht]

theorem string_eq_of_toList {x y : String} (h : x.toList = y.toList) : x = y := by
  cases x with
  | mk dx =>
    cases y with
    | mk dy =>
      have hd : dx = dy := h
      rw [hd]

theorem str_similarity_eq_one {x y : String} (h : 1 ≤ str_similarity x y) : x = y := by
  unfold str_similarity at h
  by_cases h0 : x.length + y.length = 0
  · have hx : x.toList = [] := by
      have hl : x.toList.length = 0 := by
        have hxl : x.length = x.toList.length := rfl
        omega
      exact List.eq_nil_of_length_eq_zero hl
    have hy : y.toList = [] := by
      have hl : y.toList.length = 0 := by
        have hyl : y.length = y.toList.length := rfl
        omega
      exact List.eq_nil_of_length_eq_zero hl
    exact string_eq_of_toList (hx.trans hy.symm)
  · rw [if_neg h0] at h
    have hLpos : (0 : ℚ) < ((x.length + y.length : Nat) : ℚ) := by
      have : 0 < x.length + y.length := Nat.pos_of_ne_zero h0
      exact_mod_cast this
    have hdiv := (one_le_div hLpos).mp h
    have hn : x.length + y.length ≤ 2 * get_matching_total x.toList y.toList := by
      exact_mod_cast hdiv
    obtain ⟨m1, m2⟩ := get_matching_total_le x.toList y.toList
    have hxl : x.length = x.toList.length := rfl
    have hyl : y.length = y.toList.length := rfl
    have hbjp : ∀ c j, j ∈ b2j y.toList c → y.toList.get? j = some c :=
      fun c j hj => b2j_mem hj
    have hM1 : get_matching_total x.toList y.toList = x.toList.length := by omega
    have hM2 : get_matching_total x.toList y.toList = y.toList.length := by omega
    have heq := @tmGo_eq x.toList y.toList (b2j y.toList) hbjp
      (x.toList.length + y.toList.length + 1) 0 x.toList.length
      0 y.toList.length (by omega) (by omega)
      (by unfold get_matching_total at hM1; omega)
      (by unfold get_matching_total at hM2; omega)
    refine string_eq_of_toList (list_eq_of_getD x.toList y.toList (by omega) ?_)
    intro t htl
    have hpt := heq t (by omega)
    have e : 0 + t = t := by omega
    rw [e] at hpt
    exact hpt

/-! ### Normalization lemmas (for the idempotence claim) -/

theorem removeAllGo_nil {pat : List Char} (fuel : Nat) : removeAllGo pat fuel [] = [] := by
  cases fuel <;> rfl

theorem removeAllGo_no_occurrence {pat : List Char} :
    ∀ (fuel : Nat) (s : List Char), occursIn pat s = false → s.length ≤ fuel →
      removeAllGo pat fuel s = s
  | fuel, [], _, _ => removeAllGo_nil fuel
  | 0, c :: rest, _, hlen => by simp at hlen
  | fuel + 1, c :: rest, hocc, hlen => by
    rw [occursIn, Bool.or_eq_false_iff] at hocc
    rw [show removeAllGo pat (fuel + 1) (c :: rest) =
        (if leadMatch pat (c :: rest) then removeAllGo pat fuel (List.drop (pat.length - 1) rest)
         else c :: removeAllGo pat fuel rest) from rfl]
    rw [if_neg (by simp [hocc.1])]
    rw [removeAllGo_no_occurrence fuel rest hocc.2 (by simp at hlen; omega)]

theorem removeAll_no_occurrence {pat s : List Char} (h : occursIn pat s = false) :
    removeAll pat s = s :=
  removeAllGo_no_occurrence s.length s h (Nat.le_refl _)

theorem dropWhile_head_false {p : Char → Bool} :
    ∀ (l : List Char) (c : Char) (t : List Char), List.dropWhile p l = c :: t → p c = false
  | [], _, _, h => nomatch h
  | x :: xs, c, t, h => by
    rw [List.dropWhile_cons] at h
    by_cases hx : p x
    · rw [if_pos hx] at h
      exact dropWhile_head_false xs c t h
    · rw [if_neg hx] at h
      cases h
      simpa using hx

theorem dropWhile_of_head_false {p : Char → Bool} {c : Char} {t : List Char}
    (h : p c = false) : List.dropWhile p (c :: t) = c :: t := by
  rw [List.dropWhile_cons, if_neg (by simp [h])]

theorem dropWhile_suffix_exists (p : Char → Bool) :
    ∀ l : List Char, ∃ u, u ++ List.dropWhile p l = l
  | [] => ⟨[], rfl⟩
  | x :: xs => by
    rw [List.dropWhile_cons]
    by_cases hx : p x
    · rw [if_pos hx]
      obtain ⟨u, hu⟩ := dropWhile_suffix_exists p xs
      exact ⟨x :: u, by rw [List.cons_append, hu]⟩
    · rw [if_neg hx]
      exact ⟨[], rfl⟩

theorem pyStrip_idem (l : List Char) : pyStrip (pyStrip l) = pyStrip l := by
  unfold pyStrip
  set u := List.dropWhile isPySpace l with hu
  set v := List.dropWhile isPySpace u.reverse with hv
  have hA : List.dropWhile isPySpace v.reverse = v.reverse := by
    cases hvr : v.reverse with
    | nil => rfl
    | cons c t =>
      obtain ⟨w, hw⟩ := dropWhile_suffix_exists isPySpace u.reverse
      rw [← hv] at hw
      have hu2 : v.reverse ++ w.reverse = u := by
        have hr := congrArg List.reverse hw
        rw [List.reverse_append, List.reverse_reverse] at hr
        exact hr
      have hcu : u = c :: (t ++ w.reverse) := by
        rw [← hu2, hvr, List.cons_append]
      have hc : isPySpace c = false :=
        dropWhile_head_false l c (t ++ w.reverse) (by rw [← hu, ← hcu])
      exact dropWhile_of_head_false hc
  have hB : List.dropWhile isPySpace v = v := by
    cases hv2 : v with
    | nil => rfl
    | cons c t =>
      have hc : isPySpace c = false := dropWhile_head_false u.reverse c t (by rw [← hv, hv2])
      exact dropWhile_of_head_false hc
  rw [hA, List.reverse_reverse, hB]

theorem normalizeQuery_idem_of {s : String}
    (h : occursIn cleanChars (normalizeQuery s).toList = false) :
    normalizeQuery (normalizeQuery s) = normalizeQuery s := by
  have h2 : occursIn cleanChars (pyStrip (removeAll cleanChars s.toList)) = false := h
  show String.mk (pyStrip (removeAll cleanChars (pyStrip (removeAll cleanChars s.toList)))) =
    String.mk (pyStrip (removeAll cleanChars s.toList))
  rw [removeAll_no_occurrence h2, pyStrip_idem]

/-! ### Chunking lemmas (for the batch-append claim) -/

theorem chunksGo_nil (fuel : Nat) : chunksGo fuel [] = [] := by
  cases fuel <;> rfl

theorem chunksGo_join : ∀ (fuel : Nat) (l : List String), l.length ≤ fuel →
    (chunksGo fuel l).flatten = l
  | fuel, [], _ => by rw [chunksGo_nil]; rfl
  | 0, c :: rest, h => by simp at h
  | fuel + 1, c :: rest, h => by
    rw [show chunksGo (fuel + 1) (c :: rest) =
        (c :: rest).take 99 :: chunksGo fuel ((c :: rest).drop 99) from rfl]
    rw [List.flatten_cons]
    rw [chunksGo_join fuel ((c :: rest).drop 99)
      (by simp only [List.length_drop, List.length_cons] at h ⊢; omega)]
    exact List.take_append_drop 99 (c :: rest)

theorem chunksGo_mem_le : ∀ (fuel : Nat) (l : List String) (c : List String),
    c ∈ chunksGo fuel l → c.length ≤ 99
  | fuel, [], c, h => by rw [chunksGo_nil] at h; simp at h
  | 0, x :: rest, c, h => by
    rw [show chunksGo 0 (x :: rest) = [] from rfl] at h
    simp at h
  | fuel + 1, x :: rest, c, h => by
    rw [show chunksGo (fuel + 1) (x :: rest) =
        (x :: rest).take 99 :: chunksGo fuel ((x :: rest).drop 99) from rfl] at h
    rcases List.mem_cons.mp h with h1 | h2
    · rw [h1]
      exact (List.length_take 99 (x :: rest)).le.trans (by omega)
    · exact chunksGo_mem_le fuel _ c h2

theorem divide_chunks_join (l : List String) : (divide_chunks l).flatten = l :=
  chunksGo_join l.length l (Nat.le_refl _)

theorem divide_chunks_mem_le {l c : List String} (h : c ∈ divide_chunks l) : c.length ≤ 99 :=
  chunksGo_mem_le l.length l c h

theorem appendCalls_append (l1 l2 : List Effect) :
    appendCalls (l1 ++ l2) = appendCalls l1 ++ appendCalls l2 :=
  List.filterMap_append l1 l2 _

theorem playChunks_calls (append : List String → Except PyErr Unit) (pid : String) :
    ∀ cl : List (List String),
      appendCalls (playChunks append pid cl).1 = chunksUpToFirstFailure append cl
  | [] => rfl
  | c :: rest => by
    cases hc : append c with
    | error e => simp only [playChunks, chunksUpToFirstFailure, hc]; rfl
    | ok u =>
      simp only [playChunks, chunksUpToFirstFailure, hc]
      rw [show appendCalls (Effect.remoteAppend pid c :: (playChunks append pid rest).1) =
          c :: appendCalls (playChunks append pid rest).1 from rfl]
      rw [playChunks_calls append pid rest]

theorem chunksUpTo_mem (append : List String → Except PyErr Unit) :
    ∀ (cl : List (List String)) (c : List String),
      c ∈ chunksUpToFirstFailure append cl → c ∈ cl
  | [], c, h => by simp [chunksUpToFirstFailure] at h
  | x :: rest, c, h => by
    cases hc : append x with
    | error e =>
      simp only [chunksUpToFirstFailure, hc] at h
      rcases List.mem_singleton.mp h with h1
      rw [h1]
      exact List.mem_cons_self x rest
    | ok u =>
      simp only [chunksUpToFirstFailure, hc] at h
      rcases List.mem_cons.mp h with h1 | h2
      · rw [h1]
        exact List.mem_cons_self x rest
      · exact List.mem_cons_of_mem x (chunksUpTo_mem append rest c h2)

theorem chunksUpTo_join_prefix (append : List String → Except PyErr Unit) :
    ∀ cl : List (List String),
      (chunksUpToFirstFailure append cl).flatten <+: cl.flatten
  | [] => List.prefix_refl _
  | c :: rest => by
    cases hc : append c with
    | error e =>
      simp only [chunksUpToFirstFailure, hc, List.flatten_cons]
      exact ⟨rest.flatten, by simp⟩
    | ok u =>
      simp only [chunksUpToFirstFailure, hc, List.flatten_cons]
      obtain ⟨t, ht⟩ := chunksUpTo_join_prefix append rest
      exact ⟨t, by rw [List.append_assoc, ht]⟩

/-! ### Cycle-shape lemmas for the two service variants -/

theorem get_track_effects (search : String → Except PyErr (List Candidate))
    (artist_name title : String) (similarity_threshold : ℚ) :
    (get_track search artist_name title similarity_threshold).1 =
      [Effect.searched (artist_name ++ " " ++ title)] := by
  simp only [get_track]
  cases search (artist_name ++ " " ++ title) <;> rfl

theorem handle_nofire (env : Env) (p : String) (uris : List String)
    (artist song : String) (hq : p = normalizeQuery (artist ++ " - " ++ song)) :
    (handle_now_playing env ⟨some p, uris⟩ artist song).2.1 = [] := by
  subst hq
  simp [handle_now_playing]

theorem handle_fire (env : Env) (p : String) (uris : List String)
    (artist song : String) (hq : p ≠ normalizeQuery (artist ++ " - " ++ song)) :
    ∃ rest, (handle_now_playing env ⟨some p, uris⟩ artist song).2.1 =
      Effect.logNowPlaying (normalizeQuery (artist ++ " - " ++ song)) ::
        Effect.searched (artist ++ " " ++ song) :: rest := by
  have hse := get_track_effects env.search artist song (3 / 10)
  cases hr : (get_track env.search artist song (3 / 10)).2 with
  | error e =>
    refine ⟨[], ?_⟩
    simp [handle_now_playing, hq, hr, hse]
  | ok uri =>
    by_cases hmem : lastSplitColon uri ∈ uris
    · refine ⟨[Effect.warnAlreadyInPlaylist (normalizeQuery (artist ++ " - " ++ song))], ?_⟩
      simp [handle_now_playing, hq, hr, hse, hmem]
    · by_cases hempty : uri = ""
      · subst hempty
        refine ⟨[Effect.warnNotFound (normalizeQuery (artist ++ " - " ++ song))], ?_⟩
        simp [handle_now_playing, hq, hr, hse, hmem]
      · refine ⟨add_track_to_playlist env.append env.playlist_id uri ++
          [Effect.logAdded (normalizeQuery (artist ++ " - " ++ song))], ?_⟩
        simp [handle_now_playing, hq, hr, hse, hmem, hempty]

theorem sched_nofire (env : Env) (p : String) (uris : List String)
    (artist song : String) (hq : p = artist ++ " - " ++ song) :
    (spotify_kcpr_event env ⟨some p, uris⟩ artist song).2.1 = [Effect.logNoNewData] := by
  subst hq
  simp [spotify_kcpr_event]

theorem sched_fire (env : Env) (p : String) (uris : List String)
    (artist song : String) (hq : p ≠ artist ++ " - " ++ song) :
    ∃ rest, (spotify_kcpr_event env ⟨some p, uris⟩ artist song).2.1 =
      Effect.logNowPlaying (artist ++ " - " ++ song) ::
        Effect.searched (artist ++ " " ++ song) :: rest := by
  have hse := get_track_effects env.search artist song (3 / 10)
  cases hr : (get_track env.search artist song (3 / 10)).2 with
  | error e =>
    refine ⟨[], ?_⟩
    simp [spotify_kcpr_event, hq, hr, hse]
  | ok uri =>
    by_cases hmem : uri ∈ uris
    · refine ⟨[Effect.warnAlreadyInPlaylist (artist ++ " - " ++ song)], ?_⟩
      simp [spotify_kcpr_event, hq, hr, hse, hmem]
    · refine ⟨add_track_to_playlist env.append env.playlist_id uri ++
        [Effect.logAdded (artist ++ " - " ++ song)], ?_⟩
      simp [spotify_kcpr_event, hq, hr, hse, hmem]

/-! ### The claims -/

/-- C1: the claim says that for every threshold an empty candidate list from the
catalog search makes `get_track` return `NotFound` (the empty string) rather than
failing.  The code evaluates `tracks[0]` before any check (including the
`threshold == 0.0` short-circuit), so an empty search result raises `IndexError`
for every threshold — the claim describes the documented intent
(the docstring promises "otherwise an empty string", and the sibling
`get_tracks_from_album` does guard with `if not albums`), and the code is a slip. -/
theorem c1_empty_candidates_raises (search : String → Except PyErr (List Candidate))
    (artist_name title : String) (similarity_threshold : ℚ)
    (h : search (artist_name ++ " " ++ title) = Except.ok []) :
    (get_track search artist_name title similarity_threshold).2 =
      Except.error PyErr.indexError := by
  simp [get_track, h]

/-- Witness for `c1_empty_candidates_raises`: a catalog returning no candidates,
at the short-circuit threshold `0`. -/
theorem c1_empty_candidates_raises_witness :
    ((fun _ : String => (Except.ok [] : Except PyErr (List Candidate))) ("a" ++ " " ++ "b") =
        Except.ok []) ∧
    (get_track (fun _ => Except.ok []) "a" "b" 0).2 = Except.error PyErr.indexError :=
  ⟨rfl, c1_empty_candidates_raises (fun _ => Except.ok []) "a" "b" 0 rfl⟩

unseal Rat.mul Rat.add Rat.inv Rat.sub in
/-- C2: the claim says `lastAccepted` is updated on every detected change
regardless of the outcome, so on [A, A, A, B, B, A] resolution fires exactly
twice (A→B and B→A) and never on a repeat.  `handle_now_playing` (kcpr.py)
behaves that way, but the scheduler variant updates `prev_data` only on the
added path: starting from `prev_data = "A - a"` with the resolved URI `"u"`
already in the membership list, the fire pattern over [A, A, A, B, B, A] is
[F, F, F, T, T, F] — resolution fires again on the repeated B (and not on the
B→A transition), contradicting the claim. -/
theorem c2_scheduler_refires_on_repeat :
    (sched_run envC2 ⟨some "A - a", ["u"]⟩ pollsC2).2.map firesOf =
      [false, false, false, true, true, false] := by decide

unseal Rat.mul Rat.add Rat.inv Rat.sub in
/-- C3 counterexample: for the sample ("X", "Y (Clean)") the only query sent to
the catalog search is the raw "X Y (Clean)", which still contains the "(Clean)"
noise marker — normalization is not applied to the catalog query text. -/
theorem c3_counterexample_clean_marker :
    ((handle_now_playing envC3 ⟨some "q", []⟩ "X" "Y (Clean)").2.1.filterMap searchedQuery =
        ["X Y (Clean)"]) ∧
    occursIn cleanChars ("X Y (Clean)".toList) = true := by decide

/-- C3 amended: in `handle_now_playing` normalization (marker removal and
trimming) is applied to the change-detection comparison string only; the catalog
search receives the raw `artist ++ " " ++ song`.  The scheduler variant applies
no normalization even to the comparison string. -/
theorem c3_normalization_scope (env : Env) (p : String) (uris : List String)
    (artist song : String) :
    (firesOf (handle_now_playing env ⟨some p, uris⟩ artist song).2.1 = true ↔
      p ≠ normalizeQuery (artist ++ " - " ++ song)) ∧
    (p ≠ normalizeQuery (artist ++ " - " ++ song) →
      Effect.searched (artist ++ " " ++ song) ∈
        (handle_now_playing env ⟨some p, uris⟩ artist song).2.1) ∧
    (firesOf (spotify_kcpr_event env ⟨some p, uris⟩ artist song).2.1 = true ↔
      p ≠ artist ++ " - " ++ song) := by
  refine ⟨?_, ?_, ?_⟩
  · by_cases hq : p = normalizeQuery (artist ++ " - " ++ song)
    · rw [handle_nofire env p uris artist song hq]
      simp [firesOf, hq]
    · obtain ⟨rest, hrest⟩ := handle_fire env p uris artist song hq
      rw [hrest]
      simp [firesOf, hq]
  · intro hq
    obtain ⟨rest, hrest⟩ := handle_fire env p uris artist song hq
    rw [hrest]
    simp
  · by_cases hq : p = artist ++ " - " ++ song
    · rw [sched_nofire env p uris artist song hq]
      simp [firesOf, hq]
    · obtain ⟨rest, hrest⟩ := sched_fire env p uris artist song hq
      rw [hrest]
      simp [firesOf, hq]

/-- C4: for a non-empty candidate list, `get_track` returns the top candidate's
URI unconditionally at threshold `0`; at any other threshold it returns the top
candidate's URI iff both the artist similarity and the title similarity reach the
threshold independently (otherwise the empty string), inspecting only the top
candidate; and a similarity of `1` forces character-for-character equality, so at
threshold `1.0` a match implies the candidate's artist and title are identical to
the query's. -/
theorem c4_resolve_threshold_semantics
    (search : String → Except PyErr (List Candidate)) (artist_name title : String)
    (similarity_threshold : ℚ) (c : Candidate) (cs : List Candidate)
    (ca : String) (cas : List String)
    (hs : search (artist_name ++ " " ++ title) = Except.ok (c :: cs))
    (ha : c.artists = ca :: cas) :
    ((get_track search artist_name title 0).2 = Except.ok c.uri) ∧
    (similarity_threshold ≠ 0 →
      (get_track search artist_name title similarity_threshold).2 =
        Except.ok (if similarity_threshold ≤ str_similarity ca artist_name ∧
            similarity_threshold ≤ str_similarity c.name title then c.uri else "")) ∧
    (1 ≤ str_similarity ca artist_name → ca = artist_name) ∧
    (1 ≤ str_similarity c.name title → c.name = title) := by
  refine ⟨?_, ?_, fun h => str_similarity_eq_one h, fun h => str_similarity_eq_one h⟩
  · simp [get_track, hs]
  · intro hth
    simp only [get_track, hs, ha]
    rw [if_neg hth]
    split
    · rfl
    · rfl

/-- Witness for `c4_resolve_threshold_semantics`: a concrete catalog returning one
candidate, at threshold `1/2`. -/
theorem c4_resolve_threshold_semantics_witness :
    (c4search ("a" ++ " " ++ "b") = Except.ok [c4cand]) ∧
    (((get_track c4search "a" "b" 0).2 = Except.ok c4cand.uri) ∧
     ((1 : ℚ) / 2 ≠ 0 →
       (get_track c4search "a" "b" (1 / 2)).2 =
         Except.ok (if (1 : ℚ) / 2 ≤ str_similarity "a" "a" ∧
             (1 : ℚ) / 2 ≤ str_similarity c4cand.name "b" then c4cand.uri else "")) ∧
     (1 ≤ str_similarity "a" "a" → "a" = "a") ∧
     (1 ≤ str_similarity c4cand.name "b" → c4cand.name = "b")) :=
  ⟨rfl, c4_resolve_threshold_semantics c4search "a" "b" (1 / 2) c4cand [] "a" [] rfl rfl⟩

unseal Rat.mul Rat.add Rat.inv Rat.sub in
/-- C5: the claim says every collaborator error inside a polling cycle is caught
and logged and the loop proceeds.  Fetch failures and playlist-append failures
are indeed caught (second conjunct: with a failing append endpoint the run
reaches the third poll and returns no error), but an error raised by the catalog
search during resolution propagates out of the `while` loop — only
`asyncio.CancelledError` is handled — terminating `monitor_now_playing` before
the third poll is processed (first conjunct). -/
theorem c5_resolution_error_terminates_loop :
    ((monitor_now_playing envC5 ⟨none, []⟩ pollsC5).2.2 = some PyErr.transportError ∧
     Effect.searched "C c" ∉ (monitor_now_playing envC5 ⟨none, []⟩ pollsC5).2.1) ∧
    ((monitor_now_playing envC5b ⟨none, []⟩ pollsC5).2.2 = none ∧
     Effect.searched "C c" ∈ (monitor_now_playing envC5b ⟨none, []⟩ pollsC5).2.1) := by
  decide

unseal Rat.mul Rat.add Rat.inv Rat.sub in
/-- C6: the claim says a successful remote append inserts the resolved ID into
the local membership set exactly once and the set grows by at most one.  In the
scheduler variant two requests that resolve to the same non-empty URI "u" issue
exactly one remote append (counts [1, 0]: the second request finds "u" present
and makes no call) but the set ends as ["u", "u"] — the URI is appended twice
(lines 126 and 140), growing the set by two; the spec itself flags this double
append as a defect.  `handle_now_playing` (kcpr.py) inserts once. -/
theorem c6_double_insert_scheduler :
    ((sched_run envC6 ⟨some "q0", []⟩ [("B", "b"), ("C", "c")]).1.spotify_playlist_track_uris =
        ["u", "u"]) ∧
    ((sched_run envC6 ⟨some "q0", []⟩ [("B", "b"), ("C", "c")]).2.map
        (fun effs => effs.countP isRemoteAppend) = [1, 0]) := by decide

/-- C7 counterexample: a remote append call with the empty track ID is issued —
the singleton `[""]` request is not rejected. -/
theorem c7_counterexample_empty_id_call :
    Effect.remoteAppend "P" [""] ∈ add_tracks_to_playlist okAppend "P" [""] := by decide

/-- C7 amended: an addition request with the empty track ID triggers a warning
log, but the remote append is still attempted with `[""]` (the code's "lazy
workaround" only warns and then relies on the `try` to swallow the resulting API
error, which is logged); no rejection happens and exactly one remote call is
issued. -/
theorem c7_empty_id_warn_then_call (append : List String → Except PyErr Unit)
    (playlist_id : String) :
    add_tracks_to_playlist append playlist_id [""] =
      Effect.warnEmptyTrackId :: Effect.remoteAppend playlist_id [""] ::
        (match append [""] with
         | Except.ok _ => []
         | Except.error _ => [Effect.logAddError]) := by
  cases h : append [""] with
  | error e => simp [add_tracks_to_playlist, h]
  | ok u => simp [add_tracks_to_playlist, h]

set_option maxRecDepth 40000 in
/-- C8 counterexample: 150 IDs split into chunks of 99 and 51, and the failing
first chunk is submitted, but the second chunk is never submitted — the whole
chunk loop sits inside a single `try`, so one chunk's failure aborts the
remaining chunks, contradicting "a failure while appending one chunk does not
prevent the remote submission of the subsequent chunks". -/
theorem c8_counterexample_first_chunk_failure :
    ((divide_chunks ids150).map List.length = [99, 51]) ∧
    Effect.remoteAppend "P" (List.replicate 99 "x") ∈
      add_tracks_to_playlist failOn99 "P" ids150 ∧
    appendCalls (add_tracks_to_playlist failOn99 "P" ids150) = [List.replicate 99 "x"] := by
  decide

/-- C8 amended: for a sequence of at least 99 track IDs the batch append issues
exactly the chunks of the (spec-modelled) `divide_chunks` split up to and
including the first failing one — subsequent chunks are not submitted after a
failure (earlier chunks are unaffected by a later failure); every issued call
carries at most 99 IDs, and the issued calls concatenate to a prefix of the
input sequence (split happens before any remote call, in order). -/
theorem c8_chunked_append (append : List String → Except PyErr Unit) (playlist_id : String)
    (tracks : List String) (h : 99 ≤ tracks.length) :
    appendCalls (add_tracks_to_playlist append playlist_id tracks) =
      chunksUpToFirstFailure append (divide_chunks tracks) ∧
    (∀ c ∈ appendCalls (add_tracks_to_playlist append playlist_id tracks), c.length ≤ 99) ∧
    (appendCalls (add_tracks_to_playlist append playlist_id tracks)).flatten <+: tracks := by
  have hcalls : appendCalls (add_tracks_to_playlist append playlist_id tracks) =
      chunksUpToFirstFailure append (divide_chunks tracks) := by
    simp only [add_tracks_to_playlist]
    rw [if_pos h]
    rw [appendCalls_append, appendCalls_append]
    have hw : appendCalls
        (if "" ∈ tracks ∧ tracks.length = 1 then [Effect.warnEmptyTrackId] else []) = [] := by
      split <;> rfl
    have hl : appendCalls
        (match (playChunks append playlist_id (divide_chunks tracks)).2 with
         | some _ => [Effect.logAddError]
         | none => []) = [] := by
      cases (playChunks append playlist_id (divide_chunks tracks)).2 <;> rfl
    rw [hw, hl, playChunks_calls]
    simp
  refine ⟨hcalls, ?_, ?_⟩
  · intro c hc
    rw [hcalls] at hc
    exact divide_chunks_mem_le (chunksUpTo_mem append _ c hc)
  · rw [hcalls]
    have hp := chunksUpTo_join_prefix append (divide_chunks tracks)
    rw [divide_chunks_join] at hp
    exact hp

set_option maxRecDepth 40000 in
/-- Witness for `c8_chunked_append`: 99 IDs with an always-succeeding append
endpoint. -/
theorem c8_chunked_append_witness :
    99 ≤ ids99.length ∧
    (appendCalls (add_tracks_to_playlist okAppend "P" ids99) =
        chunksUpToFirstFailure okAppend (divide_chunks ids99) ∧
      (∀ c ∈ appendCalls (add_tracks_to_playlist okAppend "P" ids99), c.length ≤ 99) ∧
      (appendCalls (add_tracks_to_playlist okAppend "P" ids99)).flatten <+: ids99) :=
  ⟨by decide, c8_chunked_append okAppend "P" ids99 (by decide)⟩

unseal Rat.mul Rat.add Rat.inv Rat.sub in
/-- C9: the claim says a `NotFound` resolution causes no playlist mutation and
the membership set never contains an empty ID.  In the scheduler variant a poll
whose candidate misses the 0.30 threshold yields the empty URI, which is not in
the membership list, so a remote append with `[""]` is issued and `""` is
appended to the set twice — exactly the blank-ID additions that `spotify.py`'s
own "Todo: Debug why this ID is sometimes blank" marks as a defect.
`handle_now_playing` (kcpr.py) guards `track_uri == ''` and conforms. -/
theorem c9_notfound_mutates_scheduler :
    ("" ∈ (spotify_kcpr_event envC9 ⟨some "q0", []⟩ "B" "b").1.spotify_playlist_track_uris) ∧
    (Effect.remoteAppend "P" [""] ∈ (spotify_kcpr_event envC9 ⟨some "q0", []⟩ "B" "b").2.1) ∧
    (spotify_kcpr_event envC9 ⟨some "q0", []⟩ "B" "b").1.spotify_playlist_track_uris =
      ["", ""] := by decide

/-- C10 counterexample: normalization is not idempotent for every string —
removing "(Clean)" from "(Cl(Clean)ean)" creates a fresh "(Clean)", so the first
normalization yields "(Clean)" and the second yields "". -/
theorem c10_counterexample_nested_marker :
    normalizeQuery (normalizeQuery "(Cl(Clean)ean)") ≠ normalizeQuery "(Cl(Clean)ean)" ∧
    normalizeQuery "(Cl(Clean)ean)" = "(Clean)" ∧
    normalizeQuery (normalizeQuery "(Cl(Clean)ean)") = "" := by decide

/-- C10 amended: normalization is idempotent for every string whose normalized
form contains no further "(Clean)" occurrence (removal of all occurrences can
splice a new occurrence together, as in the counterexample; stripping alone is
idempotent). -/
theorem c10_normalize_idem_conditional (s : String)
    (h : occursIn cleanChars (normalizeQuery s).toList = false) :
    normalizeQuery (normalizeQuery s) = normalizeQuery s := by
  have h2 : occursIn cleanChars (pyStrip (removeAll cleanChars s.toList)) = false := h
  show String.mk (pyStrip (removeAll cleanChars (pyStrip (removeAll cleanChars s.toList)))) =
    String.mk (pyStrip (removeAll cleanChars s.toList))
  rw [removeAll_no_occurrence h2, pyStrip_idem]

/-- Witness for `c10_normalize_idem_conditional` at " x (Clean)", which
normalizes to "x". -/
theorem c10_normalize_idem_conditional_witness :
    occursIn cleanChars (normalizeQuery " x (Clean)").toList = false ∧
    normalizeQuery (normalizeQuery " x (Clean)") = normalizeQuery " x (Clean)" :=
  ⟨by decide, c10_normalize_idem_conditional " x (Clean)" (by decide)⟩
